import Mathlib

/-
Verification of the prioritized replay buffer in
`yarl/components/memories/prioritized_replay.py`.

The buffer orchestrates a ring record store and two segment trees (a sum tree
and a min tree) over priority values.  The generic `SegmentTree` class itself
lives in `yarl/components/memories/segment_tree.py`, which is not among the
sources; its operations are modelled from the specification (section 4.1):
a point update replace-writes the leaf and then walks from the leaf to the
root recomputing each ancestor as the combine of its two children, `reduce`
returns the combine over an inclusive leaf range, `root_value` reads the top
node, `get` reads a leaf directly, and `index_of_prefixsum` descends from the
root, going left when the target is below the left child value and otherwise
subtracting the left child value and going right.

Machine floats are modelled as rationals (the min tree over `Option ℚ`, whose
`none` models the `float(\x27inf\x27)` initializer of the min segment buffer,
with `tf_minimum` the float minimum extended to infinity).  The priority exponent `alpha` enters only through the scoring map
`x ↦ x ^ alpha` computed by `tf.pow`; the embedding is parametric in that map
(`pow_alpha`), which is the identity for the spec scenarios with `alpha=1.0`.
The importance-correction exponent `beta` appears only in the sampling weight
formula, which is embedded over the reals with `Real.rpow`.
-/

namespace SegmentTree

/-- Modelled from the spec: after the leaf write, walk from the leaf to the
root, recomputing each ancestor node `i` as `op` of its children `2*i` and
`2*i+1`.  `fuel` bounds the walk; the node index halves each step, so any fuel
at least the tree height suffices (the callers pass the tree capacity). -/
def updateAncestors (op : α → α → α) (d : α) : ℕ → List α → ℕ → List α
  | 0, values, _ => values
  | fuel + 1, values, i =>
    if i = 0 then values
    else
      updateAncestors op d fuel
        (values.set i (op (values.getD (2 * i) d) (values.getD (2 * i + 1) d))) (i / 2)

/-- Modelled from the spec (`SegmentTree.insert`, whose module is absent from
the sources; only its call sites in `prioritized_replay.py` are shown):
replace-write the leaf for `index`, stored at array position
`capacity + index`, then recompute its ancestors with the combine operator
`op` (`tf.add` for the sum tree, `tf.minimum` for the min tree).  `d` is the
neutral element used for out-of-range reads. -/
def insert (op : α → α → α) (d : α) (capacity : ℕ) (values : List α)
    (index : ℕ) (element : α) : List α :=
  updateAncestors op d capacity (values.set (capacity + index) element)
    ((capacity + index) / 2)

/-- Modelled from the spec: direct read of the leaf for `index`. -/
def get (d : α) (capacity : ℕ) (values : List α) (index : ℕ) : α :=
  values.getD (capacity + index) d

/-- Modelled from the spec: O(1) read of the top node (array position 1). -/
def root_value (d : α) (values : List α) : α :=
  values.getD 1 d

/-- Modelled from the spec: `reduce(start, limit)` returns the combine over
the leaves `[start, limit]` inclusive (`limit` is an integer because the
caller passes `size - 1`, which is `-1` on an empty buffer, making the range
empty). -/
def reduce (op : α → α → α) (neutral : α) (d : α) (capacity : ℕ)
    (values : List α) (start : ℕ) (limit : ℤ) : α :=
  ((List.range (limit + 1 - start).toNat).map
    (fun j => values.getD (capacity + start + j) d)).foldl op neutral

/-- Modelled from the spec: one descent step of the prefix-sum inversion.
From node `node`, while the node is internal (index below `capacity`), go to
the left child when `target` is less than the left child value, otherwise
subtract the left child value from `target` and go to the right child. -/
def descend (capacity : ℕ) (values : List ℚ) : ℕ → ℚ → ℕ → ℕ
  | 0, _, node => node
  | fuel + 1, target, node =>
    if node < capacity then
      if target < values.getD (2 * node) 0 then
        descend capacity values fuel target (2 * node)
      else
        descend capacity values fuel (target - values.getD (2 * node) 0) (2 * node + 1)
    else node

/-- Modelled from the spec: `index_of_prefixsum` descends from the root
(node 1) and returns the index of the leaf at which the descent terminates. -/
def index_of_prefixsum (capacity : ℕ) (values : List ℚ) (target : ℚ) : ℕ :=
  descend capacity values capacity target 1 - capacity

end SegmentTree

namespace PrioritizedReplay

/-- Models `tf.minimum` on float values extended with infinity: `none` models
`float(\x27inf\x27)`, the initializer (and neutral element) of the min
segment buffer. -/
def tf_minimum (a b : Option ℚ) : Option ℚ :=
  match a, b with
  | none, y => y
  | some x, none => some x
  | some x, some y => some (min x y)

/-- State of the prioritized replay memory: the variables created in
`PrioritizedReplay.create_variables` — the ring cursor `index`, the element
count `size`, the running `max_priority`, the per-field record arrays
(`record_registry`), and the two segment-tree node arrays of length
`2 * priority_capacity` (sum tree zero-initialized, min tree initialized to
the neutral element of `min`, i.e. infinity, modelled as `none`). -/
structure PRState where
  index : ℕ
  size : ℕ
  max_priority : ℚ
  record_registry : List (String × List ℚ)
  sumValues : List ℚ
  minValues : List (Option ℚ)
deriving DecidableEq

/-- The freshly created state: cursor 0, size 0, `max_priority` 1.0, sum tree
all zeros, min tree all infinity. -/
def create_state (priority_capacity : ℕ)
    (registry : List (String × List ℚ)) : PRState :=
  { index := 0
    size := 0
    max_priority := 1
    record_registry := registry
    sumValues := List.replicate (2 * priority_capacity) 0
    minValues := List.replicate (2 * priority_capacity) none }

/-- Models `get_batch_size(records["/terminals"])`: the number of records in the
batch, read off the flattened terminals field. -/
def get_batch_size (records : List (String × List ℚ)) : ℕ :=
  ((records.lookup "/terminals").getD []).length

/-- Models `scatter_update_variable`: write `updates[j]` into the array at position
`indices[j]` for each `j`. -/
def scatter_update_variable (var : List ℚ) (indices : List ℕ)
    (updates : List ℚ) : List ℚ :=
  (indices.zip updates).foldl (fun a iu => a.set iu.1 iu.2) var

/-- Models `PrioritizedReplay._graph_fn_insert_records`: computes the wrapped write
indices from the cursor, scatters every batch field into its record array,
advances cursor and size, and inserts `weight = max_priority ^ alpha`
(here `pow_alpha max_priority`) into the sum tree and the min tree at every
write index. -/
def graph_fn_insert_records (capacity priority_capacity : ℕ)
    (pow_alpha : ℚ → ℚ) (s : PRState)
    (records : List (String × List ℚ)) : PRState :=
  let num_records := get_batch_size records
  let update_indices := (List.range num_records).map
    (fun j => (s.index + j) % capacity)
  let weight := pow_alpha s.max_priority
  { index := (s.index + num_records) % capacity
    size := min (s.size + num_records) capacity
    max_priority := s.max_priority
    record_registry := s.record_registry.map
      (fun kv => (kv.1,
        scatter_update_variable kv.2 update_indices ((records.lookup kv.1).getD [])))
    sumValues := update_indices.foldl
      (fun v i => SegmentTree.insert (· + ·) 0 priority_capacity v i weight)
      s.sumValues
    minValues := update_indices.foldl
      (fun v i =>
        SegmentTree.insert tf_minimum none priority_capacity v i (some weight))
      s.minValues }

/-- One iteration of the `tf.while_loop` body in
`PrioritizedReplay._graph_fn_update_records`: score the priority with
`tf.pow(update[i], alpha)`, insert it into the sum tree (`tf.add` combine) and
the min tree (`tf.minimum` combine) at `indices[i]`, and fold the running
maximum of the scored priorities. -/
def update_step (priority_capacity : ℕ) (pow_alpha : ℚ → ℚ)
    (acc : List ℚ × List (Option ℚ) × ℚ) (iu : ℕ × ℚ) :
    List ℚ × List (Option ℚ) × ℚ :=
  let priority := pow_alpha iu.2
  (SegmentTree.insert (· + ·) 0 priority_capacity acc.1 iu.1 priority,
   SegmentTree.insert tf_minimum none priority_capacity acc.2.1 iu.1 (some priority),
   max acc.2.2 priority)

/-- Models `PrioritizedReplay._graph_fn_update_records`: the loop starts at `i = 0`
with `max_priority = 0.0` and runs while `i < num_records - 1`, so it
processes exactly the first `num_records - 1` pairs of
`zip indices update`; afterwards the `max-priority` variable is overwritten
with the loop's running maximum. -/
def graph_fn_update_records (priority_capacity : ℕ) (pow_alpha : ℚ → ℚ)
    (s : PRState) (indices : List ℕ) (update : List ℚ) : PRState :=
  let num_records := indices.length
  let pairs := (indices.zip update).take (num_records - 1)
  let final := pairs.foldl (update_step priority_capacity pow_alpha)
    (s.sumValues, s.minValues, (0 : ℚ))
  { s with
    sumValues := final.1
    minValues := final.2.1
    max_priority := final.2.2 }

/-- Models `PrioritizedReplay.read_records`: gathers every record field at the given
indices, and (when next states are configured) additionally gathers each flat
state field at `(index + 1) % capacity`, exposed under the key
`"/next_states" ++ flat_state_key`. -/
def read_records (capacity : ℕ) (flat_state_keys : List String)
    (registry : List (String × List ℚ)) (indices : List ℕ) :
    List (String × List ℚ) :=
  (registry.map (fun kv => (kv.1, indices.map (fun i => kv.2.getD i 0))))
  ++ flat_state_keys.map (fun k =>
      ("/next_states" ++ k,
        indices.map (fun i =>
          ((registry.lookup ("/states" ++ k)).getD []).getD ((i + 1) % capacity) 0)))

/-- The sampled-index part of `PrioritizedReplay._graph_fn_get_records`: the
total mass is `sum_tree.reduce(0, size - 1)`, each uniform draw `u ∈ [0,1)`
becomes the target `mass * u`, and the sampled index is the prefix-sum
inversion of that target.  There is no emptiness or degeneracy check. -/
def graph_fn_get_records_indices (priority_capacity : ℕ)
    (s : PRState) (draws : List ℚ) : List ℕ :=
  let stored := SegmentTree.reduce (· + ·) 0 0 priority_capacity s.sumValues 0
    ((s.size : ℤ) - 1)
  draws.map (fun u => SegmentTree.index_of_prefixsum priority_capacity s.sumValues (stored * u))

/-- Modelled from the spec: the `EmptyBuffer` precondition of `sample` —
`size > 0` and positive total priority mass; otherwise the call is required
to fail.  (The source has no such check; this definition follows the spec's
words for comparison.) -/
def sample_spec_guard (priority_capacity : ℕ) (s : PRState) : Bool :=
  decide (0 < s.size) &&
  decide (0 < SegmentTree.reduce (· + ·) 0 0 priority_capacity s.sumValues 0
    ((s.size : ℤ) - 1))

/-- The importance-correction weight of `_graph_fn_get_records` (lines
186-203): `sample_prob = leaf / stored_mass`,
`weight = (sample_prob * size) ^ (-beta)`,
`min_prob = min_root / total_mass`,
`max_weight = (min_prob * size) ^ (-beta)`, returning `weight / max_weight`.
The real-valued power models `tf.pow` with float exponent `-beta`. -/
noncomputable def corrected_weight (beta : ℝ) (size : ℕ)
    (stored total sampleLeaf minRoot : ℝ) : ℝ :=
  ((sampleLeaf / stored) * size) ^ (-beta) /
    (((minRoot / total) * size) ^ (-beta))

end PrioritizedReplay

namespace PrioritizedReplay

/-- The concrete spec scenario: capacity 4 (priority capacity 4), record
schema with a terminals field and one flat state field, freshly created. -/
def init4 : PRState :=
  create_state 4 [("/terminals", [0, 0, 0, 0]), ("/states/x", [0, 0, 0, 0])]

/-- The batch of 4 records of the concrete scenario, terminal flags
`[0,0,0,1]`. -/
def batch4 : List (String × List ℚ) :=
  [("/terminals", [0, 0, 0, 1]), ("/states/x", [10, 11, 12, 13])]

/-- The scenario state after inserting the 4 records (alpha = 1.0, so the
scoring map is the identity). -/
def s4 : PRState := graph_fn_insert_records 4 4 id init4 batch4

/-- The scenario state after `update(indices=[0,1,2,3], priorities=[1,2,3,4])`. -/
def u4 : PRState := graph_fn_update_records 4 id s4 [0, 1, 2, 3] [1, 2, 3, 4]

/-- Explicit value of the scenario state `s4`: cursor wrapped to 0, size 4,
all four leaves seeded with `max_priority ^ alpha = 1.0` in both trees. -/
theorem s4_eq : s4 = PRState.mk 0 4 1
    [("/terminals", [0, 0, 0, 1]), ("/states/x", [10, 11, 12, 13])]
    [0, 4, 2, 2, 1, 1, 1, 1]
    [none, some 1, some 1, some 1, some 1, some 1, some 1, some 1] := by
  simp [s4, init4, batch4, graph_fn_insert_records, create_state, get_batch_size,
    scatter_update_variable, tf_minimum, SegmentTree.insert, SegmentTree.updateAncestors,
    List.range_succ, List.replicate, List.lookup]
  norm_num [min_def]

/-- Explicit value of the scenario state `u4`: the update loop runs only
while `i < num_records - 1`, so only the pairs `(0,1)`, `(1,2)`, `(2,3)` are
applied; leaf 3 keeps its seed value 1 and `max_priority` becomes 3. -/
theorem u4_eq : u4 = PRState.mk 0 4 3
    [("/terminals", [0, 0, 0, 1]), ("/states/x", [10, 11, 12, 13])]
    [0, 7, 3, 4, 1, 2, 3, 1]
    [none, some 1, some 1, some 1, some 1, some 2, some 3, some 1] := by
  simp [u4, s4_eq, graph_fn_update_records, update_step, tf_minimum,
    SegmentTree.insert, SegmentTree.updateAncestors]
  norm_num [min_def, max_def]

/-- A buffer state used to exhibit the min-tree overwrite behavior of insert:
after the scenario insert, an update gives slot 0 the low priority 1/5 while
raising `max_priority` to 5 (the update loop drops its last pair, so a third
filler pair is passed). -/
def s10a : PRState := graph_fn_update_records 4 id s4 [0, 1, 1] [1/5, 5, 77]

/-- A single-record batch overwriting slot 0 (the cursor of `s10a`). -/
def batch1 : List (String × List ℚ) :=
  [("/terminals", [0]), ("/states/x", [99])]

/-- Inserting one record into `s10a` overwrites slot 0. -/
def s10b : PRState := graph_fn_insert_records 4 4 id s10a batch1

/-- Explicit value of `s10a`: slot 0 holds priority 1/5 in both trees and the
stored `max_priority` is 5. -/
theorem s10a_eq : s10a = PRState.mk 0 4 5
    [("/terminals", [0, 0, 0, 1]), ("/states/x", [10, 11, 12, 13])]
    [0, 36/5, 26/5, 2, 1/5, 5, 1, 1]
    [none, some (1/5), some (1/5), some 1, some (1/5), some 5, some 1, some 1] := by
  simp [s10a, s4_eq, graph_fn_update_records, update_step, tf_minimum,
    SegmentTree.insert, SegmentTree.updateAncestors]
  norm_num [min_def, max_def]

/-- Explicit value of `s10b`: the insert replace-writes the min-tree leaf of
slot 0 with `max_priority ^ alpha = 5`, raising it above its previous value
1/5. -/
theorem s10b_eq : s10b = PRState.mk 1 4 5
    [("/terminals", [0, 0, 0, 1]), ("/states/x", [99, 11, 12, 13])]
    [0, 12, 10, 2, 5, 5, 1, 1]
    [none, some 1, some 5, some 1, some 5, some 5, some 1, some 1] := by
  simp [s10b, s10a_eq, batch1, graph_fn_insert_records, get_batch_size,
    scatter_update_variable, tf_minimum, SegmentTree.insert,
    SegmentTree.updateAncestors, List.range_succ, List.lookup]
  norm_num [min_def]

end PrioritizedReplay

namespace SegmentTree

/-- The ancestor walk does not change the list length. -/
theorem updateAncestors_length (op : α → α → α) (d : α) :
    ∀ (fuel : ℕ) (values : List α) (i : ℕ),
      (updateAncestors op d fuel values i).length = values.length := by
  intro fuel
  induction fuel with
  | zero => intro values i; rfl
  | succ n ih =>
    intro values i
    by_cases h : i = 0
    · simp [updateAncestors, h]
    · simp [updateAncestors, h, ih]

/-- Starting from node `i`, the ancestor walk only touches positions
`i, i/2, ...`, so every position above `i` is unchanged. -/
theorem updateAncestors_getD_of_lt (op : α → α → α) (d d2 : α) :
    ∀ (fuel : ℕ) (values : List α) (i k : ℕ), i < k →
      (updateAncestors op d fuel values i).getD k d2 = values.getD k d2 := by
  intro fuel
  induction fuel with
  | zero => intro values i k _; rfl
  | succ n ih =>
    intro values i k hik
    by_cases h : i = 0
    · simp [updateAncestors, h]
    · have h2 : i / 2 < k := lt_of_le_of_lt (Nat.div_le_self i 2) hik
      simp only [updateAncestors, h, if_false]
      rw [ih _ _ _ h2]
      simp [List.getD_eq_getElem?_getD, List.getElem?_set_ne (Nat.ne_of_lt hik)]

/-- The walk starting at node 0 is the identity. -/
theorem updateAncestors_zero (op : α → α → α) (d : α) (fuel : ℕ) (values : List α) :
    updateAncestors op d fuel values 0 = values := by
  cases fuel with
  | zero => rfl
  | succ n => simp [updateAncestors]

/-- A tree insert does not change the list length. -/
theorem insert_length (op : α → α → α) (d : α) (c : ℕ) (values : List α)
    (index : ℕ) (e : α) :
    (insert op d c values index e).length = values.length := by
  simp [insert, updateAncestors_length]

/-- Reading back the leaf just written by an insert yields the written
element (the spec's replace semantics). -/
theorem get_insert_self (op : α → α → α) (d d2 : α) (c : ℕ) (values : List α)
    (index : ℕ) (e : α) (h : c + index < values.length) :
    get d2 c (insert op d c values index e) index = e := by
  unfold insert get
  by_cases h0 : c + index = 0
  · rw [h0, updateAncestors_zero]
    have hl : 0 < values.length := by omega
    simp [List.getD_eq_getElem?_getD, List.getElem?_set_self hl]
  · have hlt : (c + index) / 2 < c + index :=
      Nat.div_lt_self (Nat.pos_of_ne_zero h0) one_lt_two
    rw [updateAncestors_getD_of_lt op d d2 _ _ _ _ hlt]
    simp [List.getD_eq_getElem?_getD, List.getElem?_set_self h]

/-- An insert at `index < c` leaves every other leaf unchanged. -/
theorem get_insert_ne (op : α → α → α) (d d2 : α) (c : ℕ) (values : List α)
    (index k : ℕ) (e : α) (hk : k ≠ index) (hidx : index < c) :
    get d2 c (insert op d c values index e) k = get d2 c values k := by
  unfold insert get
  have hstart : (c + index) / 2 < c := by
    rw [Nat.div_lt_iff_lt_mul two_pos]
    omega
  rw [updateAncestors_getD_of_lt op d d2 _ _ _ _
    (lt_of_lt_of_le hstart (Nat.le_add_right c k))]
  have hne : c + index ≠ c + k := by omega
  simp [List.getD_eq_getElem?_getD, List.getElem?_set_ne hne]

end SegmentTree

namespace SegmentTree

/-- A fold of inserts does not change the list length. -/
theorem foldl_insert_length (op : α → α → α) (d : α) (c : ℕ) (e : α) :
    ∀ (idxs : List ℕ) (values : List α),
      (idxs.foldl (fun v i => insert op d c v i e) values).length = values.length := by
  intro idxs
  induction idxs with
  | nil => intro values; rfl
  | cons x rest ih =>
    intro values
    simp only [List.foldl_cons]
    rw [ih, insert_length]

/-- A fold of inserts at indices below `c` leaves every leaf outside the
index list unchanged. -/
theorem get_foldl_insert_of_not_mem (op : α → α → α) (d d2 : α) (c : ℕ) (e : α) :
    ∀ (idxs : List ℕ) (values : List α) (k : ℕ), k ∉ idxs →
      (∀ i ∈ idxs, i < c) →
      get d2 c (idxs.foldl (fun v i => insert op d c v i e) values) k =
        get d2 c values k := by
  intro idxs
  induction idxs with
  | nil => intro values k _ _; rfl
  | cons x rest ih =>
    intro values k hk hall
    simp only [List.foldl_cons]
    rw [ih _ _ (fun h => hk (List.mem_cons_of_mem x h))
      (fun i hi => hall i (List.mem_cons_of_mem x hi))]
    exact get_insert_ne op d d2 c values x k e
      (fun h => hk (h ▸ List.mem_cons_self x rest))
      (hall x (List.mem_cons_self x rest))

/-- After a fold of inserts of the same element `e` at indices below `c`
(over node arrays of length `2 * c`), every leaf whose index occurs in the
list holds `e`: the replace semantics of the final write wins. -/
theorem get_foldl_insert_of_mem (op : α → α → α) (d d2 : α) (c : ℕ) (e : α) :
    ∀ (idxs : List ℕ) (values : List α) (k : ℕ), k ∈ idxs →
      (∀ i ∈ idxs, i < c) → values.length = 2 * c →
      get d2 c (idxs.foldl (fun v i => insert op d c v i e) values) k = e := by
  intro idxs
  induction idxs with
  | nil => intro values k hk; exact absurd hk (List.not_mem_nil k)
  | cons x rest ih =>
    intro values k hk hall hlen
    simp only [List.foldl_cons]
    by_cases hr : k ∈ rest
    · exact ih _ k hr (fun i hi => hall i (List.mem_cons_of_mem x hi))
        (by rw [insert_length]; exact hlen)
    · have hkx : k = x := by
        rcases List.mem_cons.mp hk with h | h
        · exact h
        · exact absurd h hr
      rw [get_foldl_insert_of_not_mem op d d2 c e rest _ k hr
        (fun i hi => hall i (List.mem_cons_of_mem x hi))]
      subst hkx
      exact get_insert_self op d d2 c values k e
        (by rw [hlen]; have := hall k (List.mem_cons_self k rest); omega)

end SegmentTree

namespace PrioritizedReplay

/-- C5: every slot written by an insert has its leaf set, with replace
semantics, to `weight = max_priority ^ alpha` in both the sum tree and the
min tree; and in the concrete capacity-4 scenario the first insert of 4
records makes the sum tree root 4.0. -/
theorem C5_insert_seeds_slots :
    (∀ (capacity pc : ℕ) (pow_alpha : ℚ → ℚ) (s : PRState)
        (records : List (String × List ℚ)) (j : ℕ),
      0 < capacity → capacity ≤ pc →
      s.sumValues.length = 2 * pc → s.minValues.length = 2 * pc →
      j < get_batch_size records →
      SegmentTree.get 0 pc
          (graph_fn_insert_records capacity pc pow_alpha s records).sumValues
          ((s.index + j) % capacity) = pow_alpha s.max_priority ∧
      SegmentTree.get none pc
          (graph_fn_insert_records capacity pc pow_alpha s records).minValues
          ((s.index + j) % capacity) = some (pow_alpha s.max_priority)) ∧
    SegmentTree.root_value 0 s4.sumValues = 4 := by
  constructor
  · intro capacity pc pow_alpha s records j hcap hcpc hslen hmlen hj
    have hmem : (s.index + j) % capacity ∈
        (List.range (get_batch_size records)).map (fun a => (s.index + a) % capacity) :=
      List.mem_map.mpr ⟨j, List.mem_range.mpr hj, rfl⟩
    have hall : ∀ i ∈ (List.range (get_batch_size records)).map
        (fun a => (s.index + a) % capacity), i < pc := by
      intro i hi
      rcases List.mem_map.mp hi with ⟨a, _, rfl⟩
      exact lt_of_lt_of_le (Nat.mod_lt _ hcap) hcpc
    constructor
    · exact SegmentTree.get_foldl_insert_of_mem (· + ·) 0 0 pc
        (pow_alpha s.max_priority) _ s.sumValues _ hmem hall hslen
    · exact SegmentTree.get_foldl_insert_of_mem tf_minimum none none pc
        (some (pow_alpha s.max_priority)) _ s.minValues _ hmem hall hmlen
  · rw [s4_eq]
    rfl

/-- Witness for C5 at the concrete scenario: slot 0 of the first insert holds
the seed priority in both trees. -/
theorem C5_insert_seeds_slots_witness :
    SegmentTree.get 0 4 (graph_fn_insert_records 4 4 id init4 batch4).sumValues
        ((init4.index + 0) % 4) = id init4.max_priority ∧
    SegmentTree.get none 4 (graph_fn_insert_records 4 4 id init4 batch4).minValues
        ((init4.index + 0) % 4) = some (id init4.max_priority) :=
  C5_insert_seeds_slots.1 4 4 id init4 batch4 0 (by decide) (by decide)
    (by decide) (by decide) (by decide)

/-- C10 (amended): the min-tree leaf of every written index is
replace-written during insert: afterwards it equals `max_priority ^ alpha`
regardless of its previous value, which it may therefore exceed. -/
theorem C10_min_leaf_replaced :
    ∀ (capacity pc : ℕ) (pow_alpha : ℚ → ℚ) (s : PRState)
      (records : List (String × List ℚ)) (j : ℕ),
      0 < capacity → capacity ≤ pc → s.minValues.length = 2 * pc →
      j < get_batch_size records →
      SegmentTree.get none pc
          (graph_fn_insert_records capacity pc pow_alpha s records).minValues
          ((s.index + j) % capacity) = some (pow_alpha s.max_priority) := by
  intro capacity pc pow_alpha s records j hcap hcpc hmlen hj
  have hmem : (s.index + j) % capacity ∈
      (List.range (get_batch_size records)).map (fun a => (s.index + a) % capacity) :=
    List.mem_map.mpr ⟨j, List.mem_range.mpr hj, rfl⟩
  have hall : ∀ i ∈ (List.range (get_batch_size records)).map
      (fun a => (s.index + a) % capacity), i < pc := by
    intro i hi
    rcases List.mem_map.mp hi with ⟨a, _, rfl⟩
    exact lt_of_lt_of_le (Nat.mod_lt _ hcap) hcpc
  exact SegmentTree.get_foldl_insert_of_mem tf_minimum none none pc
    (some (pow_alpha s.max_priority)) _ s.minValues _ hmem hall hmlen

/-- Witness for C10 (amended) at the overwrite scenario: the slot-0 min leaf
of `s10a` is replace-written with `s10a.max_priority` by the next insert. -/
theorem C10_min_leaf_replaced_witness :
    SegmentTree.get none 4 (graph_fn_insert_records 4 4 id s10a batch1).minValues
        ((s10a.index + 0) % 4) = some (id s10a.max_priority) :=
  C10_min_leaf_replaced 4 4 id s10a batch1 0 (by decide) (by decide)
    (by decide) (by decide)

/-- Counterexample to C10 as stated: in `s10a` the slot-0 min leaf holds 1/5,
the pending seed weight is `max_priority ^ alpha = 5`, and after the insert
the leaf holds 5 — not `tf_minimum` of 1/5 and 5, which is 1/5; the leaf
increased. -/
theorem C10_counterexample :
    SegmentTree.get none 4 s10a.minValues 0 = some (1/5) ∧
    id s10a.max_priority = 5 ∧
    SegmentTree.get none 4 s10b.minValues 0 = some 5 ∧
    tf_minimum (some (1/5)) (some 5) = some (1/5) ∧
    ¬ (some (5 : ℚ) = some (1/5 : ℚ)) := by
  rw [s10a_eq, s10b_eq]
  refine ⟨rfl, rfl, rfl, ?_, ?_⟩
  · norm_num [tf_minimum, min_def]
  · norm_num

/-- C1 evaluated at its failing input: `update_records` with the single pair
`(0, 3.0)` on the scenario state leaves both trees entirely unchanged (the
loop condition `i < num_records - 1` skips the only pair), so the slot-0
leaf still holds 1.0, not `3.0 ^ alpha = 3.0`. -/
theorem C1_update_drops_last_pair :
    (graph_fn_update_records 4 id s4 [0] [3]).sumValues = s4.sumValues ∧
    (graph_fn_update_records 4 id s4 [0] [3]).minValues = s4.minValues ∧
    SegmentTree.get 0 4 (graph_fn_update_records 4 id s4 [0] [3]).sumValues 0 = 1 ∧
    SegmentTree.get none 4 (graph_fn_update_records 4 id s4 [0] [3]).minValues 0 = some 1 ∧
    ¬ ((1 : ℚ) = id 3) := by
  refine ⟨rfl, rfl, ?_, ?_, by norm_num⟩
  · rw [show (graph_fn_update_records 4 id s4 [0] [3]).sumValues = s4.sumValues from rfl,
      s4_eq]
    rfl
  · rw [show (graph_fn_update_records 4 id s4 [0] [3]).minValues = s4.minValues from rfl,
      s4_eq]
    rfl

/-- Counterexample to C2: updating the scenario state (prior running maximum
1.0) with the single pair `(0, 3.0)` stores `max_priority = 0.0` — the loop
skipped the pair and the fold started from 0.0 instead of the prior maximum —
whereas the claim requires `max(1.0, 3.0) = 3.0`. -/
theorem C2_counterexample :
    s4.max_priority = 1 ∧
    (graph_fn_update_records 4 id s4 [0] [3]).max_priority = 0 ∧
    ¬ ((0 : ℚ) = max 1 3) := by
  refine ⟨rfl, rfl, ?_⟩
  norm_num [max_def]

/-- The third component of the update loop fold is the running maximum of the
scored priorities. -/
theorem update_foldl_max (pc : ℕ) (pow_alpha : ℚ → ℚ) :
    ∀ (pairs : List (ℕ × ℚ)) (sv : List ℚ) (mv : List (Option ℚ)) (m : ℚ),
      (pairs.foldl (update_step pc pow_alpha) (sv, mv, m)).2.2 =
        pairs.foldl (fun acc iu => max acc (pow_alpha iu.2)) m := by
  intro pairs
  induction pairs with
  | nil => intro sv mv m; rfl
  | cons p rest ih =>
    intro sv mv m
    simp only [List.foldl_cons, update_step]
    exact ih _ _ _

/-- C2 (amended): after `update_records`, the stored `max_priority` equals
the maximum of 0.0 and the alpha-exponentiated priorities of all pairs
except the last one of the batch; the prior running maximum is discarded. -/
theorem C2_max_priority_of_update :
    ∀ (pc : ℕ) (pow_alpha : ℚ → ℚ) (s : PRState)
      (indices : List ℕ) (update : List ℚ),
      (graph_fn_update_records pc pow_alpha s indices update).max_priority =
        ((indices.zip update).take (indices.length - 1)).foldl
          (fun acc iu => max acc (pow_alpha iu.2)) 0 := by
  intro pc pow_alpha s indices update
  exact update_foldl_max pc pow_alpha _ s.sumValues s.minValues 0

/-- C4 evaluated on the code: after the scenario update the sum-tree root is
7.0 (not 10.0: leaf 3 was never updated) and `max_priority` is 3.0 (not 4.0:
the last pair was skipped and the prior maximum discarded); only the min-tree
root matches the claimed 1.0. -/
theorem C4_scenario_values :
    SegmentTree.root_value 0 u4.sumValues = 7 ∧
    SegmentTree.root_value none u4.minValues = some 1 ∧
    u4.max_priority = 3 ∧
    ¬ ((7 : ℚ) = 10) ∧ ¬ ((3 : ℚ) = 4) := by
  rw [u4_eq]
  refine ⟨rfl, rfl, rfl, by norm_num, by norm_num⟩

end PrioritizedReplay

namespace PrioritizedReplay

/-- Counterexample to C3: on the never-inserted scenario buffer the spec's
EmptyBuffer guard is violated (size 0, total mass 0), yet the sampling code
returns a result — the sampled index list `[3]` — instead of failing. -/
theorem C3_counterexample :
    sample_spec_guard 4 init4 = false ∧
    graph_fn_get_records_indices 4 init4 [0] = [3] ∧
    ¬ (([3] : List ℕ) = []) := by
  refine ⟨?_, ?_, by simp⟩
  · simp [sample_spec_guard, init4, create_state, SegmentTree.reduce]
  · simp [graph_fn_get_records_indices, init4, create_state, SegmentTree.reduce,
      SegmentTree.index_of_prefixsum, SegmentTree.descend, List.replicate]

/-- C3 (amended): the code has no emptiness check — on the never-inserted
buffer, `_graph_fn_get_records` computes total mass 0, every drawn target is
`0 * u = 0`, and the prefix-sum descent over the all-zero sum tree returns
leaf `priority_capacity - 1 = 3` for every draw; the call returns these
indices rather than failing, and mutates nothing (it only reads the state).
-/
theorem C3_empty_buffer_returns :
    ∀ (draws : List ℚ),
      graph_fn_get_records_indices 4 init4 draws = draws.map (fun _ => 3) := by
  intro draws
  have hstored : SegmentTree.reduce (· + ·) 0 0 4 init4.sumValues 0
      ((init4.size : ℤ) - 1) = 0 := by
    simp [init4, create_state, SegmentTree.reduce]
  simp only [graph_fn_get_records_indices]
  rw [hstored]
  apply List.map_congr_left
  intro u _
  rw [zero_mul]
  simp [init4, create_state, SegmentTree.index_of_prefixsum, List.replicate]
  norm_num [SegmentTree.descend]

/-- The cursor and size bookkeeping of a fold of inserts, generalized over
the starting totals. -/
theorem foldl_insert_counters (capacity pc : ℕ) (pow_alpha : ℚ → ℚ) :
    ∀ (batches : List (List (String × List ℚ))) (s : PRState) (M : ℕ),
      s.index = M % capacity → s.size = min M capacity →
      (batches.foldl (fun st b => graph_fn_insert_records capacity pc pow_alpha st b)
          s).index = (M + (batches.map get_batch_size).sum) % capacity ∧
      (batches.foldl (fun st b => graph_fn_insert_records capacity pc pow_alpha st b)
          s).size = min (M + (batches.map get_batch_size).sum) capacity := by
  intro batches
  induction batches with
  | nil =>
    intro s M h1 h2
    simpa using ⟨h1, h2⟩
  | cons b rest ih =>
    intro s M h1 h2
    simp only [List.foldl_cons, List.map_cons, List.sum_cons]
    have hidx : (graph_fn_insert_records capacity pc pow_alpha s b).index =
        (M + get_batch_size b) % capacity := by
      show (s.index + get_batch_size b) % capacity = (M + get_batch_size b) % capacity
      rw [h1, Nat.mod_add_mod]
    have hsize : (graph_fn_insert_records capacity pc pow_alpha s b).size =
        min (M + get_batch_size b) capacity := by
      show min (s.size + get_batch_size b) capacity = min (M + get_batch_size b) capacity
      rw [h2]
      omega
    have := ih (graph_fn_insert_records capacity pc pow_alpha s b)
      (M + get_batch_size b) hidx hsize
    constructor
    · rw [this.1]
      ring_nf
    · rw [this.2]
      ring_nf

/-- C7: a single insert advances the cursor to `(cursor + n) % capacity` and
the size to `min(size + n, capacity)`; and over any sequence of inserts from
a fresh state totalling `N` records, the size is `min(N, capacity)` and the
cursor is `N % capacity`. -/
theorem C7_cursor_and_size :
    ∀ (capacity pc : ℕ) (pow_alpha : ℚ → ℚ), 0 < capacity →
      (∀ (s : PRState) (records : List (String × List ℚ)),
        (graph_fn_insert_records capacity pc pow_alpha s records).index =
          (s.index + get_batch_size records) % capacity ∧
        (graph_fn_insert_records capacity pc pow_alpha s records).size =
          min (s.size + get_batch_size records) capacity) ∧
      (∀ (registry : List (String × List ℚ))
          (batches : List (List (String × List ℚ))),
        (batches.foldl (fun st b => graph_fn_insert_records capacity pc pow_alpha st b)
            (create_state pc registry)).size =
          min (batches.map get_batch_size).sum capacity ∧
        (batches.foldl (fun st b => graph_fn_insert_records capacity pc pow_alpha st b)
            (create_state pc registry)).index =
          (batches.map get_batch_size).sum % capacity) := by
  intro capacity pc pow_alpha hcap
  constructor
  · intro s records
    exact ⟨rfl, rfl⟩
  · intro registry batches
    have h := foldl_insert_counters capacity pc pow_alpha batches
      (create_state pc registry) 0 (by simp [create_state]) (by simp [create_state])
    rw [Nat.zero_add] at h
    exact ⟨h.2, h.1⟩

/-- Witness for C7: two concrete batches of sizes 4 and 1 into a fresh
capacity-4 buffer. -/
theorem C7_cursor_and_size_witness :
    ([batch4, batch1].foldl (fun st b => graph_fn_insert_records 4 4 id st b)
        (create_state 4 [])).size =
      min ([batch4, batch1].map get_batch_size).sum 4 ∧
    ([batch4, batch1].foldl (fun st b => graph_fn_insert_records 4 4 id st b)
        (create_state 4 [])).index =
      ([batch4, batch1].map get_batch_size).sum % 4 :=
  (C7_cursor_and_size 4 4 id (by norm_num)).2 [] [batch4, batch1]

/-- C9: inserting an empty batch (zero records) leaves the state exactly
unchanged: cursor, size, every record field array, and both trees. -/
theorem C9_insert_empty_batch :
    ∀ (capacity pc : ℕ) (pow_alpha : ℚ → ℚ) (s : PRState)
      (records : List (String × List ℚ)),
      s.index < capacity → s.size ≤ capacity → get_batch_size records = 0 →
      graph_fn_insert_records capacity pc pow_alpha s records = s := by
  intro capacity pc pow_alpha s records h1 h2 h3
  cases s with
  | mk i sz mp reg sv mv =>
  simp only [graph_fn_insert_records, h3] at h1 h2 ⊢
  simp only [List.range_zero, List.map_nil, List.foldl_nil, Nat.add_zero]
  simp [scatter_update_variable, Nat.mod_eq_of_lt h1, min_eq_left h2, Prod.mk.eta]

/-- Witness for C9: inserting a batch whose terminals field is empty into the
scenario state changes nothing. -/
theorem C9_insert_empty_batch_witness :
    graph_fn_insert_records 4 4 id s4 [("/terminals", [])] = s4 :=
  C9_insert_empty_batch 4 4 id s4 [("/terminals", [])] (by decide) (by decide)
    (by decide)

end PrioritizedReplay

namespace PrioritizedReplay

/-- Appending on the left does not affect a lookup whose key occurs in none
of the left entries. -/
theorem lookup_append_right {β : Type} (a : String) :
    ∀ (l1 l2 : List (String × β)), (∀ p ∈ l1, p.1 ≠ a) →
      (l1 ++ l2).lookup a = l2.lookup a := by
  intro l1
  induction l1 with
  | nil => intro l2 _; rfl
  | cons p rest ih =>
    intro l2 h
    have hne : (a == p.1) = false :=
      beq_eq_false_iff_ne.mpr (fun he => h p (List.mem_cons_self p rest) he.symm)
    cases p with
    | mk k b =>
      simp only [List.cons_append, List.lookup_cons, hne]
      exact ih l2 (fun q hq => h q (List.mem_cons_of_mem _ hq))

/-- Looking up `f k` in a list of pairs `(f x, g x)` built from keys
containing `k`, with `f` injective, yields `g k`. -/
theorem lookup_map_mem {γ : Type} (f : String → String) (g : String → γ)
    (hf : ∀ x y, f x = f y → x = y) :
    ∀ (keys : List String) (k : String), k ∈ keys →
      (keys.map (fun x => (f x, g x))).lookup (f k) = some (g k) := by
  intro keys
  induction keys with
  | nil => intro k hk; exact absurd hk (List.not_mem_nil k)
  | cons k0 rest ih =>
    intro k hk
    by_cases hk0 : k = k0
    · subst hk0
      simp [List.lookup_cons]
    · have hmem : k ∈ rest := by
        rcases List.mem_cons.mp hk with h | h
        · exact absurd h hk0
        · exact h
      have hne : (f k == f k0) = false :=
        beq_eq_false_iff_ne.mpr (fun he => hk0 (hf k k0 he))
      simp only [List.map_cons, List.lookup_cons, hne]
      exact ih k hmem

/-- String append is left-cancellative. -/
theorem string_append_left_cancel (a : String) {b c : String}
    (h : a ++ b = a ++ c) : b = c := by
  apply String.ext
  have h2 := congrArg String.data h
  rw [String.data_append, String.data_append] at h2
  exact List.append_cancel_left h2

/-- C8: when next-state derivation is configured, the record dict returned by
`read_records` contains, under the key `"/next_states" ++ k` for each flat
state key `k`, the values of the state field `"/states" ++ k` gathered at
`(index + 1) % capacity`. -/
theorem C8_read_records_next_states :
    ∀ (capacity : ℕ) (flat_state_keys : List String)
      (registry : List (String × List ℚ)) (indices : List ℕ) (k : String),
      k ∈ flat_state_keys →
      (∀ kv ∈ registry, kv.1 ≠ "/next_states" ++ k) →
      (read_records capacity flat_state_keys registry indices).lookup
          ("/next_states" ++ k) =
        some (indices.map (fun i =>
          ((registry.lookup ("/states" ++ k)).getD []).getD ((i + 1) % capacity) 0)) := by
  intro capacity flat_state_keys registry indices k hk hreg
  unfold read_records
  rw [lookup_append_right _ _ _ ?side]
  case side =>
    intro p hp
    rcases List.mem_map.mp hp with ⟨kv, hkv, rfl⟩
    exact hreg kv hkv
  exact lookup_map_mem (fun x => "/next_states" ++ x)
    (fun x => indices.map (fun i =>
      ((registry.lookup ("/states" ++ x)).getD []).getD ((i + 1) % capacity) 0))
    (fun x y h => string_append_left_cancel _ h) flat_state_keys k hk

/-- Witness for C8 at the concrete scenario: reading index 3 of a capacity-4
buffer yields the next state from slot 0 (wraparound), here the value 10
stored at slot 0 of the state field. -/
theorem C8_read_records_next_states_witness :
    (read_records 4 ["/x"]
        [("/terminals", [0, 0, 0, 1]), ("/states/x", [10, 11, 12, 13])]
        [3]).lookup ("/next_states" ++ "/x") = some [10] := by
  have h := C8_read_records_next_states 4 ["/x"]
    [("/terminals", [0, 0, 0, 1]), ("/states/x", [10, 11, 12, 13])] [3] "/x"
    (by simp) (by decide)
  rw [h]
  simp [List.lookup]

end PrioritizedReplay

namespace PrioritizedReplay

/-- C6: with a positive minimum priority not exceeding the sampled leaf (as
holds for every sampled element of a non-empty, non-degenerate buffer, the
min-tree root being the minimum over all leaves) and equal stored/padded
total masses (the padding leaves are zero), the corrected importance weight
lies in `(0, 1]`; it equals 1.0 exactly when `beta = 0`, and for `beta > 0`
it equals 1.0 exactly on leaves realizing the global minimum priority. -/
theorem C6_corrected_weight_range :
    ∀ (beta : ℝ) (size : ℕ) (stored total sampleLeaf minRoot : ℝ),
      0 ≤ beta → 0 < size → 0 < stored → total = stored →
      0 < minRoot → minRoot ≤ sampleLeaf →
      (0 < corrected_weight beta size stored total sampleLeaf minRoot ∧
        corrected_weight beta size stored total sampleLeaf minRoot ≤ 1) ∧
      (beta = 0 → corrected_weight beta size stored total sampleLeaf minRoot = 1) ∧
      (0 < beta →
        (corrected_weight beta size stored total sampleLeaf minRoot = 1 ↔
          sampleLeaf = minRoot)) := by
  intro beta size stored total sampleLeaf minRoot hb hn ht htot hm hms
  rw [htot]
  have ht' : stored ≠ 0 := ne_of_gt ht
  have hs : 0 < sampleLeaf := lt_of_lt_of_le hm hms
  have hnR : (0 : ℝ) < (size : ℝ) := Nat.cast_pos.mpr hn
  have hA : 0 < (sampleLeaf / stored) * size := by positivity
  have hB : 0 < (minRoot / stored) * size := by positivity
  have hratio : ((minRoot / stored) * size) / ((sampleLeaf / stored) * size)
      = minRoot / sampleLeaf := by
    field_simp
    ring
  have hnR' : (size : ℝ) ≠ 0 := ne_of_gt hnR
  have hw : corrected_weight beta size stored stored sampleLeaf minRoot
      = (minRoot / sampleLeaf) ^ beta := by
    unfold corrected_weight
    rw [Real.rpow_neg hA.le, Real.rpow_neg hB.le, inv_div_inv,
      ← Real.div_rpow hB.le hA.le, hratio]
  have hdivpos : 0 < minRoot / sampleLeaf := div_pos hm hs
  have hdivle : minRoot / sampleLeaf ≤ 1 := (div_le_one hs).mpr hms
  refine ⟨⟨?_, ?_⟩, ?_, ?_⟩
  · rw [hw]; exact Real.rpow_pos_of_pos hdivpos beta
  · rw [hw]; exact Real.rpow_le_one hdivpos.le hdivle hb
  · intro h0; subst h0
    unfold corrected_weight
    rw [neg_zero, Real.rpow_zero, Real.rpow_zero]
    norm_num
  · intro hbpos
    rw [hw]
    constructor
    · intro h1
      by_contra hne
      have hlt : minRoot / sampleLeaf < 1 := lt_of_le_of_ne hdivle (by
        intro he
        exact hne (by
          field_simp at he
          linarith))
      have hless := Real.rpow_lt_one hdivpos.le hlt hbpos
      rw [h1] at hless
      exact lt_irrefl 1 hless
    · intro h
      rw [h, div_self (ne_of_gt hm), Real.one_rpow]

/-- Witness for C6: at `beta = 0` the corrected weight is exactly 1.0. -/
theorem C6_corrected_weight_range_witness :
    corrected_weight 0 2 3 3 2 1 = 1 :=
  (C6_corrected_weight_range 0 2 3 3 2 1 le_rfl (by norm_num) (by norm_num)
    rfl (by norm_num) (by norm_num)).2.1 rfl

end PrioritizedReplay
